import Mathlib

/-!
Verification of `sync_copilot_files.py`: a script that lists
`.instructions.md` files in a remote GitHub directory, lists the local
VS Code prompts directory, and re-downloads exactly the files present in
both, preserving local-only files.

The embedding is a shallow one: HTTP is an oracle (`Net`), the local
directory is a list of file names (`Option (List String)`, `none` when
the directory does not exist), and every externally visible action of a
run is recorded as an `Event`.  Python exceptions are `Except.error`;
`requests.Response.json()` is modelled by the parse outcome carried in
the `Response`.
-/

namespace SyncCopilot

/-- JSON values, as produced by `response.json()` in Python `requests`. -/
inductive Json where
  | null
  | bool (b : Bool)
  | num (n : Int)
  | str (s : String)
  | arr (items : List Json)
  | obj (fields : List (String × Json))
deriving Repr, Inhabited

/-- An HTTP response to the directory-listing request: the status code and
the outcome of `response.json()` (`Except.error` = `JSONDecodeError` raised
because the body is malformed JSON). -/
structure Response where
  status_code : Nat
  json : Except String Json
deriving Repr

/-- The network oracle: the listing response, and for each raw-content URL
the fetched body (`none` = an exception was raised during the GET or by
`raise_for_status`). -/
structure Net where
  listing : Response
  fetch : String → Option String

/-- Externally visible actions of a run. -/
inductive Event where
  | mkdirP (dir : String)
  | httpGet (url : String)
  | listDir (dir : String)
  | write (path : String) (content : String)
  | log (msg : String)
deriving Repr, DecidableEq

/-- `os.path.join` of the script, abstracted to separator concatenation. -/
def joinPath (a b : String) : String := a ++ "/" ++ b

/-- The fixed directory-listing endpoint (line 32 of the script). -/
def instructionsUrl : String :=
  "https://api.github.com/repos/github/awesome-copilot/contents/instructions"

/-- The fixed raw-content endpoint, parameterized only by file name
(line 141 of the script). -/
def rawUrl (file_name : String) : String :=
  "https://raw.githubusercontent.com/github/awesome-copilot/main/instructions/" ++ file_name

/-- The suffix both listings filter by. -/
def instrSuffix : String := ".instructions.md"

/-- Python `str.endswith`: the suffix's characters end the string's. -/
def pyEndsWith (s suffix : String) : Bool :=
  List.isSuffixOf suffix.data s.data

/-- Lexicographic comparison of character lists by code point, the order
Python uses to compare strings. -/
def lexLe : List Char → List Char → Bool
  | [], _ => true
  | _ :: _, [] => false
  | a :: as, b :: bs =>
    if a < b then true
    else if b < a then false
    else lexLe as bs

/-- Python string comparison `a <= b`. -/
def strLe (a b : String) : Bool := lexLe a.data b.data

/-- Python `dict.get(key, dflt)` on a parsed JSON object: duplicate keys in
the source text keep the last occurrence. -/
def dictGet (kvs : List (String × Json)) (key : String) (dflt : Json) : Json :=
  match (kvs.filter (fun kv => kv.1 = key)).getLast? with
  | some kv => kv.2
  | none => dflt

/-- Python `for item in data` over a JSON value: arrays yield elements,
dicts yield their keys, strings yield one-character strings, everything
else raises `TypeError`. -/
def pyIter : Json → Except String (List Json)
  | .arr items => .ok items
  | .obj kvs => .ok (kvs.map (fun kv => Json.str kv.1))
  | .str s => .ok (s.toList.map (fun c => Json.str c.toString))
  | _ => .error "TypeError: object is not iterable"

/-- One iteration of the loop in `get_github_files` (lines 43-45):
a dict item whose `name` ends with the suffix contributes its name; a
non-dict item is skipped; a dict whose `name` value is not a string makes
`endswith` raise `AttributeError`. -/
def processItem (item : Json) : Except String (Option String) :=
  match item with
  | .obj kvs =>
    match dictGet kvs "name" (.str "") with
    | .str s => .ok (if pyEndsWith s instrSuffix then some s else none)
    | _ => .error "AttributeError: endswith"
  | _ => .ok none

/-- The whole loop of `get_github_files`, collecting the names. -/
def collectNames : List Json → Except String (List String)
  | [] => .ok []
  | item :: rest => do
    let o ← processItem item
    let tail ← collectNames rest
    match o with
    | some s => .ok (s :: tail)
    | none => .ok tail

/-- `get_github_files` (lines 26-47): GET the listing; on a non-200 status
log and return `[]`; otherwise parse the body and collect the names of the
dict entries ending in `.instructions.md`.  Exceptions (malformed JSON,
non-iterable body, non-string `name`) propagate as `Except.error`. -/
def get_github_files (resp : Response) : List Event × Except String (List String) :=
  if resp.status_code ≠ 200 then
    ([Event.httpGet instructionsUrl,
      Event.log ("Ошибка: Не удалось получить файлы с GitHub. Код: " ++
        toString resp.status_code)],
     .ok [])
  else
    match resp.json with
    | .error e => ([Event.httpGet instructionsUrl], .error e)
    | .ok data =>
      match pyIter data with
      | .error e => ([Event.httpGet instructionsUrl], .error e)
      | .ok items =>
        match collectNames items with
        | .error e => ([Event.httpGet instructionsUrl], .error e)
        | .ok names => ([Event.httpGet instructionsUrl], .ok names)

/-- `get_local_files` (lines 50-67): `[]` when the directory does not
exist, otherwise the entries ending in `.instructions.md`. -/
def get_local_files (fs : Option (List String)) : List String :=
  match fs with
  | none => []
  | some entries => entries.filter (fun f => pyEndsWith f instrSuffix)

/-- `download_file` (lines 70-92): GET the raw URL; on success open the
save path and write the body, print and return `True`; on any exception
print the error and return `False`.  `writeOk` tells whether writing to a
path succeeds; a failed write still opens (hence touches) the path. -/
def download_file (file_name url save_path : String)
    (fetch : String → Option String) (writeOk : String → Bool) :
    Bool × List Event :=
  match fetch url with
  | none => (false, [Event.httpGet url, Event.log ("Ошибка загрузки " ++ file_name)])
  | some body =>
    if writeOk save_path then
      (true, [Event.httpGet url, Event.write save_path body,
              Event.log ("Загружено: " ++ file_name)])
    else
      (false, [Event.httpGet url, Event.write save_path body,
               Event.log ("Ошибка загрузки " ++ file_name)])

/-- `files_to_update = github_files.intersection(local_files)` (line 117),
as a duplicate-free list. -/
def files_to_update (github locals : List String) : List String :=
  (locals.filter (fun f => decide (f ∈ github))).dedup

/-- `files_to_preserve = local_files - github_files` (line 118),
as a duplicate-free list. -/
def files_to_preserve (github locals : List String) : List String :=
  (locals.filter (fun f => decide (f ∉ github))).dedup

/-- Python `sorted` on a set of strings: ascending lexicographic order. -/
def pySorted (l : List String) : List String :=
  l.insertionSort (fun a b => strLe a b = true)

/-- The download loop of `sync_copilot_files` (lines 140-144): attempt
each file in order, counting the successes and accumulating the events. -/
def downloadLoop (prompts_dir : String) (fetch : String → Option String)
    (writeOk : String → Bool) : List String → Nat × List Event
  | [] => (0, [])
  | name :: rest =>
    let (ok, evs) := download_file name (rawUrl name) (joinPath prompts_dir name)
      fetch writeOk
    let (n, evs') := downloadLoop prompts_dir fetch writeOk rest
    ((if ok then 1 else 0) + n, evs ++ evs')

/-- List union keeping the left list's order: the file names present in
the directory after the downloads (an opened file exists afterwards). -/
def listUnion (a b : List String) : List String :=
  a ++ b.filter (fun x => decide (x ∉ a))

/-- Everything `sync_copilot_files` computes during a successful run. -/
structure SyncStats where
  github_files : List String
  local_files : List String
  update : List String
  preserve : List String
  total_downloaded : Nat
  final_fs : List String
  final_count : Nat
deriving Repr, DecidableEq

/-- `sync_copilot_files` (lines 95-157): create the directory (parents,
`exist_ok=True`), list remote and local names, compute the update and
preserve sets, download the update set in sorted order, and report the
final local listing.  An exception from `get_github_files` propagates. -/
def sync_copilot_files (prompts_dir : String) (net : Net)
    (fs0 : Option (List String)) (writeOk : String → Bool) :
    List Event × Except String SyncStats :=
  let fs1 : List String := fs0.getD []
  let (gEvents, gRes) := get_github_files net.listing
  match gRes with
  | .error e => (Event.mkdirP prompts_dir :: gEvents, .error e)
  | .ok github_list =>
    let locals := get_local_files (some fs1)
    let updSorted := pySorted (files_to_update github_list locals)
    let pres := files_to_preserve github_list locals
    let (total, dlEvents) := downloadLoop prompts_dir net.fetch writeOk updSorted
    let written := updSorted.filter (fun n => (net.fetch (rawUrl n)).isSome)
    let fs2 := listUnion fs1 written
    (Event.mkdirP prompts_dir :: gEvents ++ [Event.listDir prompts_dir] ++ dlEvents
      ++ [Event.listDir prompts_dir],
     .ok { github_files := github_list
           local_files := locals
           update := updSorted
           preserve := pres
           total_downloaded := total
           final_fs := fs2
           final_count := (get_local_files (some fs2)).length })

/-- `VSCODE_VERSION` (line 19). -/
def VSCODE_VERSION : String := "Code - Insiders"

/-- The `__main__` block (lines 160-177): read `APPDATA`; when it is unset
or empty (`not appdata`), raise `ValueError` before doing anything else;
otherwise build the prompts path and run the sync. -/
def mainRun (appdata : Option String) (net : Net)
    (fs0 : Option (List String)) (writeOk : String → Bool) :
    List Event × Except String SyncStats :=
  match appdata with
  | none => ([], .error "ValueError: Переменная окружения APPDATA не установлена")
  | some a =>
    if a = "" then
      ([], .error "ValueError: Переменная окружения APPDATA не установлена")
    else
      sync_copilot_files (joinPath (joinPath (joinPath a VSCODE_VERSION) "User") "prompts")
        net fs0 writeOk

/-- Modelled from the spec: the settings-document operations (spec §2(e),
§4 "read/write-JSON (load-or-default-empty, serialize with stable
formatting)", §8) are absent from `src/sync_copilot_files.py`; only this
part is taken from the spec's words.  Loading: a missing settings file
yields an empty mapping. -/
def load_settings (contents : Option Json) : Json :=
  contents.getD (Json.obj [])

/-- Set a key in a JSON-object field list, overwriting in place or
appending, as Python dict assignment followed by `json.dump` does. -/
def setKey (kvs : List (String × Json)) (key : String) (v : Json) :
    List (String × Json) :=
  if kvs.any (fun kv => decide (kv.1 = key)) then
    kvs.map (fun kv => if kv.1 = key then (key, v) else kv)
  else kvs ++ [(key, v)]

/-- Look a key up in a JSON-object field list. -/
def getKey : List (String × Json) → String → Option Json
  | [], _ => none
  | kv :: rest, k => if kv.1 = k then some kv.2 else getKey rest k

/-- Modelled from the spec: saving the settings document rewrites the
file-list key to the local directory's current contents, keeping the
prior keys (spec §2(e), §4, §8). -/
def save_settings (prior : List (String × Json)) (fileListKey : String)
    (fs : Option (List String)) : Json :=
  Json.obj (setKey prior fileListKey (Json.arr ((get_local_files fs).map Json.str)))

/-- The name a listing entry contributes when it is a dict with a string
`name` (spec-side restatement used for the refinement in C9). -/
def itemName (item : Json) : Option String :=
  match item with
  | .obj kvs =>
    match dictGet kvs "name" (.str "") with
    | .str s => some s
    | _ => none
  | _ => none

/-- A listing entry on which the loop body cannot raise: anything except a
dict whose `name` value is not a string. -/
def itemOk (item : Json) : Bool :=
  match item with
  | .obj kvs =>
    match dictGet kvs "name" (.str "") with
    | .str _ => true
    | _ => false
  | _ => true

/-- Spec-side description of the remote listing result: the names of the
entries that end with `.instructions.md`. -/
def listingNames (items : List Json) : List String :=
  items.filterMap (fun i =>
    match itemName i with
    | some s => if pyEndsWith s instrSuffix then some s else none
    | none => none)

/-! ### Helper lemmas -/

lemma mem_files_to_update (g l : List String) (x : String) :
    x ∈ files_to_update g l ↔ x ∈ l ∧ x ∈ g := by
  simp [files_to_update, List.mem_dedup, List.mem_filter]

lemma mem_files_to_preserve (g l : List String) (x : String) :
    x ∈ files_to_preserve g l ↔ x ∈ l ∧ x ∉ g := by
  simp [files_to_preserve, List.mem_dedup, List.mem_filter]

lemma lexLe_iff_not_lex (l₁ l₂ : List Char) :
    lexLe l₁ l₂ = true ↔ ¬ List.Lex (· < ·) l₂ l₁ := by
  induction l₁ generalizing l₂ with
  | nil =>
    exact iff_of_true rfl (fun h => nomatch h)
  | cons a as ih =>
    cases l₂ with
    | nil =>
      refine iff_of_false (by simp [lexLe]) ?_
      intro h
      exact h List.Lex.nil
    | cons b bs =>
      by_cases hab : a < b
      · refine iff_of_true (by simp [lexLe, hab]) ?_
        intro h
        cases h with
        | cons h' => exact absurd hab (lt_irrefl _)
        | rel h' => exact absurd h' (lt_asymm hab)
      · by_cases hba : b < a
        · refine iff_of_false (by simp [lexLe, hab, hba]) ?_
          intro h
          exact h (List.Lex.rel hba)
        · have heq : b = a := le_antisymm (not_lt.1 hab) (not_lt.1 hba)
          subst heq
          have h1 : lexLe (b :: as) (b :: bs) = lexLe as bs := by
            simp [lexLe]
          have h2 : List.Lex (· < ·) (b :: bs) (b :: as) ↔
              List.Lex (· < ·) bs as := by
            constructor
            · intro h
              cases h with
              | cons h' => exact h'
              | rel h' => exact absurd h' (lt_irrefl _)
            · exact List.Lex.cons
          rw [h1, h2]
          exact ih bs

lemma strLe_iff (a b : String) : strLe a b = true ↔ a ≤ b := by
  rw [String.le_iff_toList_le, ← not_lt]
  exact lexLe_iff_not_lex a.data b.data

lemma mem_pySorted (l : List String) (x : String) : x ∈ pySorted l ↔ x ∈ l :=
  (List.perm_insertionSort _ l).mem_iff

lemma sorted_pySorted (l : List String) :
    List.Sorted (fun a b : String => a ≤ b) (pySorted l) := by
  haveI : IsTotal String (fun a b : String => strLe a b = true) := by
    constructor
    intro a b
    rcases le_total a b with h | h
    · exact Or.inl ((strLe_iff a b).2 h)
    · exact Or.inr ((strLe_iff b a).2 h)
  haveI : IsTrans String (fun a b : String => strLe a b = true) := by
    constructor
    intro a b c hab hbc
    exact (strLe_iff a c).2 (le_trans ((strLe_iff a b).1 hab) ((strLe_iff b c).1 hbc))
  exact List.Pairwise.imp (fun hab => (strLe_iff _ _).1 hab)
    (List.sorted_insertionSort _ l)

lemma mem_listUnion (a b : List String) (x : String) :
    x ∈ listUnion a b ↔ x ∈ a ∨ x ∈ b := by
  by_cases hx : x ∈ a
  · simp [listUnion, hx]
  · simp [listUnion, List.mem_filter, hx]

lemma download_file_fail (nm url path : String) (fetch : String → Option String)
    (wOk : String → Bool) (h : fetch url = none) :
    download_file nm url path fetch wOk =
      (false, [Event.httpGet url, Event.log ("Ошибка загрузки " ++ nm)]) := by
  unfold download_file
  rw [h]

lemma download_file_success (nm url path : String) (fetch : String → Option String)
    (wOk : String → Bool) (body : String) (h : fetch url = some body)
    (hw : wOk path = true) :
    download_file nm url path fetch wOk =
      (true, [Event.httpGet url, Event.write path body,
              Event.log ("Загружено: " ++ nm)]) := by
  unfold download_file
  rw [h, hw]
  simp

lemma download_file_fail_or (nm url path : String) (fetch : String → Option String)
    (wOk : String → Bool) (h : fetch url = none ∨ wOk path = false) :
    (download_file nm url path fetch wOk).1 = false ∧
    Event.log ("Ошибка загрузки " ++ nm) ∈ (download_file nm url path fetch wOk).2 := by
  rcases h with h | h
  · simp [download_file, h]
  · cases hf : fetch url with
    | none => simp [download_file, hf]
    | some body => simp [download_file, hf, h]

lemma download_file_httpGet (nm url path : String) (fetch : String → Option String)
    (wOk : String → Bool) :
    Event.httpGet url ∈ (download_file nm url path fetch wOk).2 := by
  unfold download_file
  cases h : fetch url with
  | none => simp
  | some body =>
    cases hw : wOk path <;> simp

lemma download_file_write_inv (nm url path : String) (fetch : String → Option String)
    (wOk : String → Bool) (p c : String)
    (h : Event.write p c ∈ (download_file nm url path fetch wOk).2) :
    p = path ∧ fetch url = some c := by
  unfold download_file at h
  cases hf : fetch url with
  | none => rw [hf] at h; simp at h
  | some body =>
    rw [hf] at h
    cases hw : wOk path <;> rw [hw] at h <;> simp at h <;>
      exact ⟨h.1, by rw [h.2]⟩

lemma downloadLoop_count (dir : String) (fetch : String → Option String)
    (wOk : String → Bool) (l : List String) :
    (downloadLoop dir fetch wOk l).1 =
      (l.filter (fun n =>
        (download_file n (rawUrl n) (joinPath dir n) fetch wOk).1)).length := by
  induction l with
  | nil => rfl
  | cons hd tl ih =>
    cases hok : (download_file hd (rawUrl hd) (joinPath dir hd) fetch wOk).1 <;>
      simp [downloadLoop, List.filter, hok, ih, Nat.add_comm]

lemma downloadLoop_events (dir : String) (fetch : String → Option String)
    (wOk : String → Bool) (l : List String) (e : Event) :
    e ∈ (downloadLoop dir fetch wOk l).2 ↔
      ∃ name, name ∈ l ∧
        e ∈ (download_file name (rawUrl name) (joinPath dir name) fetch wOk).2 := by
  induction l with
  | nil => simp [downloadLoop]
  | cons hd tl ih =>
    simp [downloadLoop, List.mem_append, ih]

lemma get_github_files_no_write (resp : Response) (p c : String) :
    Event.write p c ∉ (get_github_files resp).1 := by
  unfold get_github_files
  by_cases h : resp.status_code ≠ 200
  · simp [h]
  · simp only [h, if_false]
    cases resp.json with
    | error e => simp
    | ok data =>
      cases hp : pyIter data with
      | error e => simp [hp]
      | ok items =>
        cases hc : collectNames items <;> simp [hp, hc]

lemma sync_eq_ok (dir : String) (net : Net) (fs0 : Option (List String))
    (wOk : String → Bool) (gevs : List Event) (g : List String)
    (hg : get_github_files net.listing = (gevs, Except.ok g)) :
    sync_copilot_files dir net fs0 wOk =
      (Event.mkdirP dir :: gevs ++ [Event.listDir dir]
         ++ (downloadLoop dir net.fetch wOk
              (pySorted (files_to_update g (get_local_files (some (fs0.getD [])))))).2
         ++ [Event.listDir dir],
       Except.ok
         { github_files := g
           local_files := get_local_files (some (fs0.getD []))
           update := pySorted (files_to_update g (get_local_files (some (fs0.getD []))))
           preserve := files_to_preserve g (get_local_files (some (fs0.getD [])))
           total_downloaded := (downloadLoop dir net.fetch wOk
             (pySorted (files_to_update g (get_local_files (some (fs0.getD [])))))).1
           final_fs := listUnion (fs0.getD [])
             ((pySorted (files_to_update g (get_local_files (some (fs0.getD []))))).filter
               (fun n => (net.fetch (rawUrl n)).isSome))
           final_count := (get_local_files (some (listUnion (fs0.getD [])
             ((pySorted (files_to_update g (get_local_files (some (fs0.getD []))))).filter
               (fun n => (net.fetch (rawUrl n)).isSome))))).length }) := by
  unfold sync_copilot_files
  rw [hg]

lemma sync_eq_err (dir : String) (net : Net) (fs0 : Option (List String))
    (wOk : String → Bool) (gevs : List Event) (e : String)
    (hg : get_github_files net.listing = (gevs, Except.error e)) :
    sync_copilot_files dir net fs0 wOk = (Event.mkdirP dir :: gevs, Except.error e) := by
  unfold sync_copilot_files
  rw [hg]

lemma mem_update_mem_locals (g L : List String) (x : String)
    (h : x ∈ pySorted (files_to_update g L)) : x ∈ L :=
  ((mem_files_to_update g L x).1 ((mem_pySorted _ x).1 h)).1

lemma mem_get_local_files (fs1 : List String) (x : String)
    (h : x ∈ get_local_files (some fs1)) : x ∈ fs1 :=
  (List.mem_filter.1 h).1

/-! ### Sample runs used by the witnesses -/

/-- A listing response with two instruction files, one of which is local. -/
def netA : Net :=
  { listing := ⟨200, .ok (.arr [.obj [("name", .str "a.instructions.md")],
      .obj [("name", .str "c.instructions.md")]])⟩
    fetch := fun _ => some "body" }

/-- A listing response with one instruction file whose fetch fails. -/
def netB : Net :=
  { listing := ⟨200, .ok (.arr [.obj [("name", .str "a.instructions.md")]])⟩
    fetch := fun _ => none }

/-- The stats of the run of `netA` against local files `a`, `b`. -/
def statsA : SyncStats :=
  { github_files := ["a.instructions.md", "c.instructions.md"]
    local_files := ["a.instructions.md", "b.instructions.md"]
    update := ["a.instructions.md"]
    preserve := ["b.instructions.md"]
    total_downloaded := 1
    final_fs := ["a.instructions.md", "b.instructions.md"]
    final_count := 2 }

/-- The events of the run of `netA` against local files `a`, `b`. -/
def evsA : List Event :=
  [Event.mkdirP "d", Event.httpGet instructionsUrl, Event.listDir "d",
   Event.httpGet (rawUrl "a.instructions.md"),
   Event.write "d/a.instructions.md" "body",
   Event.log "Загружено: a.instructions.md", Event.listDir "d"]

/-- A listing response with one instruction file that fetches fine; used
with a failing write to exercise the save-exception path. -/
def netC : Net :=
  { listing := ⟨200, .ok (.arr [.obj [("name", .str "a.instructions.md")]])⟩
    fetch := fun _ => some "body" }

/-- The stats of the run of `netC` against local file `a` with every
write failing. -/
def statsC : SyncStats :=
  { github_files := ["a.instructions.md"]
    local_files := ["a.instructions.md"]
    update := ["a.instructions.md"]
    preserve := []
    total_downloaded := 0
    final_fs := ["a.instructions.md"]
    final_count := 1 }

/-- The events of the run of `netC` against local file `a` with every
write failing. -/
def evsC : List Event :=
  [Event.mkdirP "d", Event.httpGet instructionsUrl, Event.listDir "d",
   Event.httpGet (rawUrl "a.instructions.md"),
   Event.write "d/a.instructions.md" "body",
   Event.log "Ошибка загрузки a.instructions.md", Event.listDir "d"]

/-- The stats of the run of `netB` against local file `a`. -/
def statsB : SyncStats :=
  { github_files := ["a.instructions.md"]
    local_files := ["a.instructions.md"]
    update := ["a.instructions.md"]
    preserve := []
    total_downloaded := 0
    final_fs := ["a.instructions.md"]
    final_count := 1 }

/-- The events of the run of `netB` against local file `a`. -/
def evsB : List Event :=
  [Event.mkdirP "d", Event.httpGet instructionsUrl, Event.listDir "d",
   Event.httpGet (rawUrl "a.instructions.md"),
   Event.log "Ошибка загрузки a.instructions.md", Event.listDir "d"]

/-! ### Claims -/

/-- C1: in every successful run of `sync_copilot_files`, the update set is
the intersection of the local and remote file-name sets and the preserved
set is their difference (lines 117-118 of the script). -/
theorem spec_c1_update_preserve_sets (dir : String) (net : Net)
    (fs0 : Option (List String)) (wOk : String → Bool) (evs : List Event)
    (stats : SyncStats)
    (h : sync_copilot_files dir net fs0 wOk = (evs, Except.ok stats)) :
    (∀ x, x ∈ stats.update ↔ x ∈ stats.local_files ∧ x ∈ stats.github_files) ∧
    (∀ x, x ∈ stats.preserve ↔ x ∈ stats.local_files ∧ x ∉ stats.github_files) := by
  rcases hg : get_github_files net.listing with ⟨gevs, gRes⟩
  cases gRes with
  | error e =>
    rw [sync_eq_err dir net fs0 wOk gevs e hg] at h
    simp at h
  | ok g =>
    rw [sync_eq_ok dir net fs0 wOk gevs g hg] at h
    simp only [Prod.mk.injEq, Except.ok.injEq] at h
    obtain ⟨-, hstats⟩ := h
    subst hstats
    refine ⟨fun x => ?_, fun x => ?_⟩
    · simpa using (mem_pySorted _ x).trans (mem_files_to_update _ _ x)
    · simpa using mem_files_to_preserve _ _ x

/-- Witness for C1 at a concrete run. -/
theorem spec_c1_witness :
    "a.instructions.md" ∈ statsA.update ↔
      "a.instructions.md" ∈ statsA.local_files ∧
        "a.instructions.md" ∈ statsA.github_files :=
  (spec_c1_update_preserve_sets "d" netA
    (some ["a.instructions.md", "b.instructions.md"]) (fun _ => true)
    evsA statsA (by rfl)).1 "a.instructions.md"

/-- C2: every path written during a run of `sync_copilot_files` is
`prompts_dir` joined with a name already in the local listing, and the set
of names in the directory is unchanged afterwards (no file created, none
deleted): lines 113, 140-144, and 85-86 of the script. -/
theorem spec_c2_frame (dir : String) (net : Net) (fs0 : Option (List String))
    (wOk : String → Bool) (evs : List Event) (res : Except String SyncStats)
    (h : sync_copilot_files dir net fs0 wOk = (evs, res)) :
    (∀ p c, Event.write p c ∈ evs →
      ∃ name, name ∈ get_local_files (some (fs0.getD [])) ∧
        p = joinPath dir name) ∧
    (∀ stats, res = Except.ok stats →
      ∀ x, x ∈ stats.final_fs ↔ x ∈ fs0.getD []) := by
  rcases hg : get_github_files net.listing with ⟨gevs, gRes⟩
  cases gRes with
  | error e =>
    rw [sync_eq_err dir net fs0 wOk gevs e hg] at h
    simp only [Prod.mk.injEq] at h
    obtain ⟨hevs, hres⟩ := h
    subst hevs
    subst hres
    refine ⟨fun p c hpc => ?_, fun stats hstats => by simp at hstats⟩
    rcases List.mem_cons.1 hpc with heq | hmem
    · exact absurd heq (by simp)
    · have hnw := get_github_files_no_write net.listing p c
      rw [hg] at hnw
      exact absurd hmem hnw
  | ok g =>
    rw [sync_eq_ok dir net fs0 wOk gevs g hg] at h
    simp only [Prod.mk.injEq, Except.ok.injEq] at h
    obtain ⟨hevs, hstats⟩ := h
    subst hevs
    subst hstats
    constructor
    · intro p c hpc
      simp only [List.cons_append, List.mem_cons, List.mem_append,
        List.mem_singleton] at hpc
      rcases hpc with h1 | ⟨⟨h2 | h3⟩ | h4⟩ | h5
      · exact absurd h1 (by simp)
      · have hnw := get_github_files_no_write net.listing p c
        rw [hg] at hnw
        exact absurd h2 hnw
      · exact absurd h3 (by simp)
      · obtain ⟨name, hname, hev⟩ := (downloadLoop_events dir net.fetch wOk _ _).1 h4
        obtain ⟨hp, -⟩ := download_file_write_inv name (rawUrl name)
          (joinPath dir name) net.fetch wOk p c hev
        exact ⟨name, mem_update_mem_locals g _ name hname, hp⟩
      · exact absurd h5 (by simp)
    · intro stats hstats x
      simp only [Except.ok.injEq] at hstats
      subst hstats
      show x ∈ listUnion (fs0.getD []) _ ↔ _
      rw [mem_listUnion]
      constructor
      · rintro (hx | hx)
        · exact hx
        · exact mem_get_local_files _ x
            (mem_update_mem_locals g _ x (List.mem_filter.1 hx).1)
      · exact fun hx => Or.inl hx

/-- Witness for C2 at a concrete run. -/
theorem spec_c2_witness :
    ∃ name,
      name ∈ get_local_files
        (some ((some ["a.instructions.md", "b.instructions.md"] :
          Option (List String)).getD [])) ∧
      "d/a.instructions.md" = joinPath "d" name :=
  (spec_c2_frame "d" netA (some ["a.instructions.md", "b.instructions.md"])
    (fun _ => true) evsA (Except.ok statsA) (by rfl)).1
    "d/a.instructions.md" "body" (by simp [evsA])

/-- C3: for every name in the update set, the raw-content URL fetched is
the fixed endpoint parameterized only by the name, and on success the
local copy at `prompts_dir` joined with the name is overwritten with the
fetched body, `download_file` returning `True` (lines 81-89, 138-144). -/
theorem spec_c3_fetch_and_overwrite (dir : String) (net : Net)
    (fs0 : Option (List String)) (wOk : String → Bool) (evs : List Event)
    (stats : SyncStats) (name body : String)
    (h : sync_copilot_files dir net fs0 wOk = (evs, Except.ok stats))
    (hmem : name ∈ stats.update)
    (hf : net.fetch (rawUrl name) = some body)
    (hw : wOk (joinPath dir name) = true) :
    download_file name (rawUrl name) (joinPath dir name) net.fetch wOk =
      (true, [Event.httpGet (rawUrl name), Event.write (joinPath dir name) body,
              Event.log ("Загружено: " ++ name)]) ∧
    Event.httpGet (rawUrl name) ∈ evs ∧
    Event.write (joinPath dir name) body ∈ evs := by
  rcases hg : get_github_files net.listing with ⟨gevs, gRes⟩
  cases gRes with
  | error e =>
    rw [sync_eq_err dir net fs0 wOk gevs e hg] at h
    simp at h
  | ok g =>
    rw [sync_eq_ok dir net fs0 wOk gevs g hg] at h
    simp only [Prod.mk.injEq, Except.ok.injEq] at h
    obtain ⟨hevs, hstats⟩ := h
    subst hevs
    subst hstats
    have hdl := download_file_success name (rawUrl name) (joinPath dir name)
      net.fetch wOk body hf hw
    refine ⟨hdl, ?_, ?_⟩
    · have : Event.httpGet (rawUrl name) ∈
          (downloadLoop dir net.fetch wOk _).2 :=
        (downloadLoop_events dir net.fetch wOk _ _).2
          ⟨name, hmem, download_file_httpGet name (rawUrl name)
            (joinPath dir name) net.fetch wOk⟩
      simp [List.mem_append, this]
    · have : Event.write (joinPath dir name) body ∈
          (downloadLoop dir net.fetch wOk _).2 :=
        (downloadLoop_events dir net.fetch wOk _ _).2
          ⟨name, hmem, by rw [hdl]; simp⟩
      simp [List.mem_append, this]

/-- Witness for C3 at a concrete run. -/
theorem spec_c3_witness :
    download_file "a.instructions.md" (rawUrl "a.instructions.md")
      (joinPath "d" "a.instructions.md") netA.fetch (fun _ => true) =
      (true, [Event.httpGet (rawUrl "a.instructions.md"),
              Event.write (joinPath "d" "a.instructions.md") "body",
              Event.log ("Загружено: " ++ "a.instructions.md")]) ∧
    Event.httpGet (rawUrl "a.instructions.md") ∈ evsA ∧
    Event.write (joinPath "d" "a.instructions.md") "body" ∈ evsA :=
  spec_c3_fetch_and_overwrite "d" netA
    (some ["a.instructions.md", "b.instructions.md"]) (fun _ => true)
    evsA statsA "a.instructions.md" "body" (by rfl) (by simp [statsA]) rfl rfl

lemma getKey_map_set_self (kvs : List (String × Json)) (key : String) (v : Json)
    (h : kvs.any (fun kv => decide (kv.1 = key)) = true) :
    getKey (kvs.map (fun kv => if kv.1 = key then (key, v) else kv)) key = some v := by
  induction kvs with
  | nil => simp at h
  | cons hd tl ih =>
    by_cases hk : hd.1 = key
    · simp [getKey, hk]
    · have htl : tl.any (fun kv => decide (kv.1 = key)) = true := by
        simpa [hk] using h
      simp only [List.map_cons, if_neg hk, getKey, if_neg hk]
      exact ih htl

lemma getKey_map_set_other (kvs : List (String × Json)) (key : String) (v : Json)
    (k : String) (hk : k ≠ key) :
    getKey (kvs.map (fun kv => if kv.1 = key then (key, v) else kv)) k =
      getKey kvs k := by
  induction kvs with
  | nil => rfl
  | cons hd tl ih =>
    by_cases hhd : hd.1 = key
    · have hne : hd.1 ≠ k := by rw [hhd]; exact Ne.symm hk
      simp only [List.map_cons, if_pos hhd, getKey, if_neg (Ne.symm hk), if_neg hne]
      exact ih
    · by_cases hpk : hd.1 = k
      · simp [getKey, hhd, hpk, hk]
      · simp only [List.map_cons, if_neg hhd, getKey, if_neg hpk]
        exact ih

lemma getKey_append_self (kvs : List (String × Json)) (key : String) (v : Json)
    (hno : ∀ kv ∈ kvs, kv.1 ≠ key) :
    getKey (kvs ++ [(key, v)]) key = some v := by
  induction kvs with
  | nil => simp [getKey]
  | cons hd tl ih =>
    simp only [List.cons_append, getKey, if_neg (hno hd (by simp))]
    exact ih (fun kv hkv => hno kv (by simp [hkv]))

lemma getKey_append_other (kvs : List (String × Json)) (key : String) (v : Json)
    (k : String) (hk : k ≠ key) :
    getKey (kvs ++ [(key, v)]) k = getKey kvs k := by
  induction kvs with
  | nil => simp [getKey, Ne.symm hk]
  | cons hd tl ih =>
    by_cases hpk : hd.1 = k
    · simp [getKey, hpk]
    · simp only [List.cons_append, getKey, if_neg hpk]
      exact ih

lemma getKey_setKey_self (kvs : List (String × Json)) (key : String) (v : Json) :
    getKey (setKey kvs key v) key = some v := by
  unfold setKey
  by_cases hAny : kvs.any (fun kv => decide (kv.1 = key)) = true
  · rw [if_pos hAny]
    exact getKey_map_set_self kvs key v hAny
  · rw [if_neg hAny]
    refine getKey_append_self kvs key v ?_
    intro kv hkv
    have := List.any_eq_false.1 (eq_false_of_ne_true hAny) kv hkv
    simpa using this

lemma getKey_setKey_other (kvs : List (String × Json)) (key : String) (v : Json)
    (k : String) (hk : k ≠ key) :
    getKey (setKey kvs key v) k = getKey kvs k := by
  unfold setKey
  by_cases hAny : kvs.any (fun kv => decide (kv.1 = key)) = true
  · rw [if_pos hAny]
    exact getKey_map_set_other kvs key v k hk
  · rw [if_neg hAny]
    exact getKey_append_other kvs key v k hk

/-- C4: modelled from the spec (the settings-document code is absent from
`src/`): loading a missing settings file yields an empty mapping, and
saving yields a JSON object that keeps every prior key and rewrites the
file-list key to the local directory's current contents. -/
theorem spec_c4_settings_roundtrip (prior : List (String × Json)) (key : String)
    (fs : Option (List String)) (k : String) (hk : k ≠ key) :
    load_settings none = Json.obj [] ∧
    ∃ kvs, save_settings prior key fs = Json.obj kvs ∧
      getKey kvs k = getKey prior k ∧
      getKey kvs key = some (Json.arr ((get_local_files fs).map Json.str)) := by
  refine ⟨rfl, setKey prior key (Json.arr ((get_local_files fs).map Json.str)),
    rfl, ?_, ?_⟩
  · exact getKey_setKey_other prior key _ k hk
  · exact getKey_setKey_self prior key _

/-- Witness for C4 at a concrete settings document. -/
theorem spec_c4_witness :
    load_settings none = Json.obj [] ∧
    ∃ kvs, save_settings [("editor", Json.bool true)] "files"
        (some ["f.instructions.md"]) = Json.obj kvs ∧
      getKey kvs "editor" = getKey [("editor", Json.bool true)] "editor" ∧
      getKey kvs "files" =
        some (Json.arr ((get_local_files (some ["f.instructions.md"])).map Json.str)) :=
  spec_c4_settings_roundtrip [("editor", Json.bool true)] "files"
    (some ["f.instructions.md"]) "editor" (by decide)

/-- C5: a non-200 directory-listing response makes `get_github_files` log
an error and return the empty list after a single request (lines 33-39). -/
theorem spec_c5_non200 (resp : Response) (h : resp.status_code ≠ 200) :
    get_github_files resp =
      ([Event.httpGet instructionsUrl,
        Event.log ("Ошибка: Не удалось получить файлы с GitHub. Код: " ++
          toString resp.status_code)],
       Except.ok []) ∧
    (get_github_files resp).1.countP (fun e =>
        match e with
        | Event.httpGet _ => true
        | _ => false) = 1 := by
  have h1 : get_github_files resp =
      ([Event.httpGet instructionsUrl,
        Event.log ("Ошибка: Не удалось получить файлы с GitHub. Код: " ++
          toString resp.status_code)],
       Except.ok []) := by
    unfold get_github_files
    rw [if_pos h]
  refine ⟨h1, ?_⟩
  rw [h1]
  rfl

/-- Witness for C5 at a concrete 404 response. -/
theorem spec_c5_witness :
    get_github_files ⟨404, Except.ok Json.null⟩ =
      ([Event.httpGet instructionsUrl,
        Event.log ("Ошибка: Не удалось получить файлы с GitHub. Код: " ++
          toString (404 : Nat))],
       Except.ok []) :=
  (spec_c5_non200 ⟨404, Except.ok Json.null⟩ (by decide)).1

/-- A 200 response whose body is malformed JSON: `response.json()` raises
`JSONDecodeError`. -/
def malformedResp : Response :=
  ⟨200, Except.error "Expecting value: line 1 column 1 (char 0)"⟩

/-- C6 counterexample: on a malformed 200 response, `get_github_files`
does not log-and-return-empty; the decode exception propagates and aborts
the whole `sync_copilot_files` run. -/
theorem spec_c6_counterexample :
    (get_github_files malformedResp).2 ≠ Except.ok [] ∧
    (get_github_files malformedResp).2 =
      Except.error "Expecting value: line 1 column 1 (char 0)" ∧
    (sync_copilot_files "d" ⟨malformedResp, fun _ => none⟩ (some [])
        (fun _ => true)).2 =
      Except.error "Expecting value: line 1 column 1 (char 0)" := by
  have h2 : (get_github_files malformedResp).2 =
      Except.error "Expecting value: line 1 column 1 (char 0)" := rfl
  refine ⟨?_, h2, rfl⟩
  rw [h2]
  intro hEq
  exact Except.noConfusion hEq

/-- C6 amended: a malformed directory-listing body is not caught inside
`get_github_files`; the exception from `response.json()` propagates out of
`sync_copilot_files`, aborting the run (lines 42-47 have no handler), and
no logging happens on the way: the traces hold no log event at all. -/
theorem spec_c6_amended (resp : Response) (e : String)
    (h200 : resp.status_code = 200) (hjson : resp.json = Except.error e) :
    get_github_files resp = ([Event.httpGet instructionsUrl], Except.error e) ∧
    (∀ msg, Event.log msg ∉ (get_github_files resp).1) ∧
    ∀ dir (fetch : String → Option String) fs0 (wOk : String → Bool),
      sync_copilot_files dir ⟨resp, fetch⟩ fs0 wOk =
        ([Event.mkdirP dir, Event.httpGet instructionsUrl], Except.error e) ∧
      ∀ msg, Event.log msg ∉ (sync_copilot_files dir ⟨resp, fetch⟩ fs0 wOk).1 := by
  have hg : get_github_files resp = ([Event.httpGet instructionsUrl], Except.error e) := by
    unfold get_github_files
    rw [if_neg (by simp [h200]), hjson]
  refine ⟨hg, ?_, ?_⟩
  · intro msg
    rw [hg]
    simp
  · intro dir fetch fs0 wOk
    have hs := sync_eq_err dir ⟨resp, fetch⟩ fs0 wOk [Event.httpGet instructionsUrl] e hg
    refine ⟨hs, ?_⟩
    intro msg
    rw [hs]
    simp

/-- Witness for the amended C6 at a concrete malformed response. -/
theorem spec_c6_amended_witness :
    get_github_files ⟨200, Except.error "bad json"⟩ =
      ([Event.httpGet instructionsUrl], Except.error "bad json") ∧
    Event.log "Ошибка" ∉ (get_github_files ⟨200, Except.error "bad json"⟩).1 ∧
    sync_copilot_files "d" ⟨⟨200, Except.error "bad json"⟩, fun _ => none⟩
        (some []) (fun _ => true) =
      ([Event.mkdirP "d", Event.httpGet instructionsUrl], Except.error "bad json") := by
  have h := spec_c6_amended ⟨200, Except.error "bad json"⟩ "bad json" rfl rfl
  exact ⟨h.1, h.2.1 "Ошибка",
    (h.2.2 "d" (fun _ => none) (some []) (fun _ => true)).1⟩

/-- C7: a file whose fetch raises (the GET returns nothing) or whose save
raises (the write to its path fails) makes `download_file` log an error
and return `False`; the loop still attempts every file of the update set,
retries nothing, and counts only the successful downloads (lines 90-92,
136-144). -/
theorem spec_c7_failure_continues (dir : String) (net : Net)
    (fs0 : Option (List String)) (wOk : String → Bool) (evs : List Event)
    (stats : SyncStats) (name : String)
    (h : sync_copilot_files dir net fs0 wOk = (evs, Except.ok stats))
    (hmem : name ∈ stats.update)
    (hfail : net.fetch (rawUrl name) = none ∨ wOk (joinPath dir name) = false) :
    (download_file name (rawUrl name) (joinPath dir name) net.fetch wOk).1 = false ∧
    Event.log ("Ошибка загрузки " ++ name) ∈ evs ∧
    (∀ other, other ∈ stats.update → Event.httpGet (rawUrl other) ∈ evs) ∧
    stats.total_downloaded =
      (stats.update.filter (fun n =>
        (download_file n (rawUrl n) (joinPath dir n) net.fetch wOk).1)).length := by
  rcases hg : get_github_files net.listing with ⟨gevs, gRes⟩
  cases gRes with
  | error e =>
    rw [sync_eq_err dir net fs0 wOk gevs e hg] at h
    simp at h
  | ok g =>
    rw [sync_eq_ok dir net fs0 wOk gevs g hg] at h
    simp only [Prod.mk.injEq, Except.ok.injEq] at h
    obtain ⟨hevs, hstats⟩ := h
    subst hevs
    subst hstats
    obtain ⟨hfalse, hlog⟩ := download_file_fail_or name (rawUrl name)
      (joinPath dir name) net.fetch wOk hfail
    refine ⟨hfalse, ?_, ?_, downloadLoop_count dir net.fetch wOk _⟩
    · have : Event.log ("Ошибка загрузки " ++ name) ∈
          (downloadLoop dir net.fetch wOk _).2 :=
        (downloadLoop_events dir net.fetch wOk _ _).2 ⟨name, hmem, hlog⟩
      simp [List.mem_append, this]
    · intro other hother
      have : Event.httpGet (rawUrl other) ∈
          (downloadLoop dir net.fetch wOk _).2 :=
        (downloadLoop_events dir net.fetch wOk _ _).2
          ⟨other, hother, download_file_httpGet other (rawUrl other)
            (joinPath dir other) net.fetch wOk⟩
      simp [List.mem_append, this]

/-- Witness for C7 at two concrete runs: one whose fetch raises (`netB`)
and one whose save raises (`netC` with every write failing). -/
theorem spec_c7_witness :
    ((download_file "a.instructions.md" (rawUrl "a.instructions.md")
        (joinPath "d" "a.instructions.md") netB.fetch (fun _ => true)).1 = false ∧
      Event.log ("Ошибка загрузки " ++ "a.instructions.md") ∈ evsB ∧
      statsB.total_downloaded =
        (statsB.update.filter (fun n =>
          (download_file n (rawUrl n) (joinPath "d" n) netB.fetch
            (fun _ => true)).1)).length) ∧
    ((download_file "a.instructions.md" (rawUrl "a.instructions.md")
        (joinPath "d" "a.instructions.md") netC.fetch (fun _ => false)).1 = false ∧
      Event.log ("Ошибка загрузки " ++ "a.instructions.md") ∈ evsC ∧
      statsC.total_downloaded =
        (statsC.update.filter (fun n =>
          (download_file n (rawUrl n) (joinPath "d" n) netC.fetch
            (fun _ => false)).1)).length) := by
  have h1 := spec_c7_failure_continues "d" netB (some ["a.instructions.md"])
    (fun _ => true) evsB statsB "a.instructions.md" (by rfl)
    (by simp [statsB]) (Or.inl rfl)
  have h2 := spec_c7_failure_continues "d" netC (some ["a.instructions.md"])
    (fun _ => false) evsC statsC "a.instructions.md" (by rfl)
    (by simp [statsC]) (Or.inr rfl)
  exact ⟨⟨h1.1, h1.2.1, h1.2.2.2⟩, ⟨h2.1, h2.2.1, h2.2.2.2⟩⟩

/-- C8: an unset or empty `APPDATA` raises `ValueError` before any
listing, download, or filesystem write (lines 160-164: the run produces
no events at all). -/
theorem spec_c8_appdata_guard (net : Net) (fs0 : Option (List String))
    (wOk : String → Bool) :
    mainRun none net fs0 wOk =
      ([], Except.error "ValueError: Переменная окружения APPDATA не установлена") ∧
    mainRun (some "") net fs0 wOk =
      ([], Except.error "ValueError: Переменная окружения APPDATA не установлена") :=
  ⟨rfl, rfl⟩

lemma collectNames_eq (items : List Json) (hok : ∀ i ∈ items, itemOk i = true) :
    collectNames items = Except.ok (listingNames items) := by
  induction items with
  | nil => rfl
  | cons hd tl ih =>
    have hhd := hok hd (by simp)
    have htl := ih (fun i hi => hok i (by simp [hi]))
    cases hd with
    | obj kvs =>
      cases hname : dictGet kvs "name" (.str "") with
      | str s =>
        cases hs : pyEndsWith s instrSuffix <;>
          (simp [collectNames, processItem, listingNames, itemName, hname, hs, htl]
           ; try rfl)
      | null => simp [itemOk, hname] at hhd
      | bool b => simp [itemOk, hname] at hhd
      | num n => simp [itemOk, hname] at hhd
      | arr l => simp [itemOk, hname] at hhd
      | obj o => simp [itemOk, hname] at hhd
    | null =>
      simp [collectNames, processItem, listingNames, itemName, htl]
      try rfl
    | bool b =>
      simp [collectNames, processItem, listingNames, itemName, htl]
      try rfl
    | num n =>
      simp [collectNames, processItem, listingNames, itemName, htl]
      try rfl
    | str s =>
      simp [collectNames, processItem, listingNames, itemName, htl]
      try rfl
    | arr l =>
      simp [collectNames, processItem, listingNames, itemName, htl]
      try rfl

lemma listingNames_eq_filter (items : List Json) :
    listingNames items =
      (items.filterMap itemName).filter (fun s => pyEndsWith s instrSuffix) := by
  induction items with
  | nil => rfl
  | cons hd tl ih =>
    simp only [listingNames] at ih ⊢
    cases hi : itemName hd with
    | none => simp [List.filterMap_cons, hi, ih]
    | some s =>
      cases hs : pyEndsWith s instrSuffix <;>
        simp [List.filterMap_cons, hi, hs, ih]

/-- C9: both listings filter by the `.instructions.md` suffix:
`get_github_files` on a 200 array-of-objects response returns exactly the
entry names ending in the suffix (lines 41-47), and `get_local_files`
returns exactly the directory entries ending in the suffix, `[]` when the
directory does not exist (lines 59-67). -/
theorem spec_c9_suffix_filter (items : List Json) (entries : List String)
    (hok : ∀ i ∈ items, itemOk i = true) :
    get_github_files ⟨200, Except.ok (Json.arr items)⟩ =
      ([Event.httpGet instructionsUrl], Except.ok (listingNames items)) ∧
    listingNames items =
      (items.filterMap itemName).filter (fun s => pyEndsWith s instrSuffix) ∧
    get_local_files (some entries) =
      entries.filter (fun f => pyEndsWith f instrSuffix) ∧
    get_local_files none = [] := by
  refine ⟨?_, listingNames_eq_filter items, rfl, rfl⟩
  unfold get_github_files
  rw [if_neg (by simp)]
  simp [pyIter, collectNames_eq items hok]

/-- Witness for C9 at a concrete listing with a non-matching name and a
non-dict entry. -/
theorem spec_c9_witness :
    get_github_files ⟨200, Except.ok (Json.arr
      [Json.obj [("name", Json.str "a.instructions.md")],
       Json.obj [("name", Json.str "b.txt")], Json.str "zz"])⟩ =
      ([Event.httpGet instructionsUrl],
       Except.ok (listingNames
        [Json.obj [("name", Json.str "a.instructions.md")],
         Json.obj [("name", Json.str "b.txt")], Json.str "zz"])) :=
  (spec_c9_suffix_filter
    [Json.obj [("name", Json.str "a.instructions.md")],
     Json.obj [("name", Json.str "b.txt")], Json.str "zz"]
    ["x.instructions.md"] (by decide)).1

/-- C10: `sync_copilot_files` creates the directory first (the first event
of every run is the `mkdir -p`, before any request or listing; a prior
directory is no error and a missing one becomes empty, line 105), the
final listing is taken from the directory that then exists (line 156), and
the update set is processed in ascending lexicographic order (line 140). -/
theorem spec_c10_mkdir_order (dir : String) (net : Net)
    (fs0 : Option (List String)) (wOk : String → Bool) (evs : List Event)
    (res : Except String SyncStats)
    (h : sync_copilot_files dir net fs0 wOk = (evs, res)) :
    evs.head? = some (Event.mkdirP dir) ∧
    ∀ stats, res = Except.ok stats →
      stats.local_files = get_local_files (some (fs0.getD [])) ∧
      stats.final_count = (get_local_files (some stats.final_fs)).length ∧
      List.Sorted (fun a b : String => a ≤ b) stats.update := by
  rcases hg : get_github_files net.listing with ⟨gevs, gRes⟩
  cases gRes with
  | error e =>
    rw [sync_eq_err dir net fs0 wOk gevs e hg] at h
    simp only [Prod.mk.injEq] at h
    obtain ⟨hevs, hres⟩ := h
    subst hevs
    subst hres
    exact ⟨rfl, fun stats hstats => by simp at hstats⟩
  | ok g =>
    rw [sync_eq_ok dir net fs0 wOk gevs g hg] at h
    simp only [Prod.mk.injEq, Except.ok.injEq] at h
    obtain ⟨hevs, hstats⟩ := h
    subst hevs
    subst hstats
    refine ⟨rfl, fun stats hstats => ?_⟩
    simp only [Except.ok.injEq] at hstats
    subst hstats
    exact ⟨rfl, rfl, sorted_pySorted _⟩

/-- Witness for C10 at a concrete run. -/
theorem spec_c10_witness :
    evsA.head? = some (Event.mkdirP "d") ∧
    List.Sorted (fun a b : String => a ≤ b) statsA.update := by
  have w := spec_c10_mkdir_order "d" netA
    (some ["a.instructions.md", "b.instructions.md"]) (fun _ => true)
    evsA (Except.ok statsA) (by rfl)
  exact ⟨w.1, (w.2 statsA rfl).2.2⟩

end SyncCopilot
